import Mathlib

/-
  Verification of the CRTOS kernel (src/CRTOS.cpp) against its
  natural-language specification.  The definitions below are a shallow
  embedding of the C++ source: machine integers become Nat (with explicit
  wrap arithmetic where the source relies on it), raw memory becomes
  functions Nat → Nat, and the intrusive lists become Lean lists.
-/

set_option maxRecDepth 10000

/-- Task states, from `enum class TaskState` in src/CRTOS.cpp. -/
inductive TaskState where
  | TASK_RUNNING
  | TASK_READY
  | TASK_DELAYED
  | TASK_PAUSED
  | TASK_BLOCKED_BY_SEMAPHORE
  | TASK_BLOCKED_BY_QUEUE
  | TASK_BLOCKED_BY_CIRC_BUFFER
deriving DecidableEq, Repr

/-- The result codes used by the kernel operations modelled here
(`CRTOS::Result`). -/
inductive Result where
  | RESULT_SUCCESS
  | RESULT_BAD_PARAMETER
  | RESULT_NO_MEMORY
  | RESULT_MEMORY_NOT_INITIALIZED
  | RESULT_SEMAPHORE_BUSY
  | RESULT_SEMAPHORE_TIMEOUT
  | RESULT_TIMER_ALREADY_ACTIVE
  | RESULT_TIMER_ALREADY_STOPPED
  | RESULT_QUEUE_FULL
  | RESULT_QUEUE_TIMEOUT
  | RESULT_CIRCULAR_BUFFER_FULL
  | RESULT_CIRCULAR_BUFFER_TIMEOUT
  | RESULT_TASK_NOT_FOUND
deriving DecidableEq, Repr

/-- `CRTOS::Timer::SoftwareTimer` (src/CRTOS.hpp).  The callback and its
argument are not data the timer logic inspects; a timer is identified by
its position in the timer store, so callback invocations are reported as
timer indices. -/
structure SoftwareTimer where
  timeoutTicks : Nat
  elapsedTicks : Nat
  isActive : Bool
  autoReload : Bool
deriving DecidableEq, Repr

/-- `CRTOS::Timer::Start` (src/CRTOS.cpp lines 522-537), for a non-null
timer: active timers are rejected, otherwise elapsed is reset and the
timer activated. -/
def Timer.Start (timer : SoftwareTimer) : Result × SoftwareTimer :=
  if timer.isActive = true then
    (Result.RESULT_TIMER_ALREADY_ACTIVE, timer)
  else
    (Result.RESULT_SUCCESS, { timer with elapsedTicks := 0, isActive := true })

/-- `CRTOS::Timer::Stop` (src/CRTOS.cpp lines 539-554), for a non-null
timer.  The source tests `timer->isActive == true` and returns
`RESULT_TIMER_ALREADY_STOPPED` in that case; only an already inactive
timer reaches the deactivate-and-reset path. -/
def Timer.Stop (timer : SoftwareTimer) : Result × SoftwareTimer :=
  if timer.isActive = true then
    (Result.RESULT_TIMER_ALREADY_STOPPED, timer)
  else
    (Result.RESULT_SUCCESS, { timer with isActive := false, elapsedTicks := 0 })

/-- The cycle-accounting fields of a `TaskControlBlock`. -/
structure CycleAccount where
  enterCycles : Nat
  exitCycles : Nat
  executionTime : Nat
deriving DecidableEq, Repr

/-- The elapsed-cycles computation of `switchCtx` (src/CRTOS.cpp lines
922-930): single 32-bit wrap handled as `0xFFFFFFFF - exit + enter`. -/
def elapsedCyclesCalc (enterCycles exitCycles : Nat) : Nat :=
  if enterCycles > exitCycles then
    4294967295 - exitCycles + enterCycles
  else
    exitCycles - enterCycles

/-- The execution-time update applied by `switchCtx` to the outgoing task
(src/CRTOS.cpp line 932): `sCurrentTCB->executionTime = elapsedCycles;`
— an assignment of the freshly computed delta. -/
def switchCtxAccount (t : CycleAccount) : CycleAccount :=
  { t with executionTime := elapsedCyclesCalc t.enterCycles t.exitCycles }

/-- The RAM/stack sizing computed by
`CRTOS::Task::LPC55S69_Features::CreateTaskForBinModule`
(src/CRTOS.cpp lines 1384-1395): `ramSize` is computed from the raw
`stackSize` before the 1024 default is substituted. -/
def computeBinModRam (data_size bss_size stackPointer msp_limit : Nat) :
    Nat × Nat :=
  let stackSize := if stackPointer > msp_limit then stackPointer - msp_limit else 0
  let ramSize := data_size + bss_size + stackSize
  let stackSize := if stackSize = 0 then 1024 else stackSize
  let ramSize := if ramSize = 0 then stackSize else ramSize
  (stackSize, ramSize)

/-- `pStringLength` (src/CRTOS.cpp lines 447-457): walks to the NUL
terminator and counts it, i.e. returns strlen + 1.  A C string is
modelled as the list of its characters before the terminator. -/
def pStringLength (name : List Nat) : Nat := name.length + 1

/-- `memcpy_optimized` restricted to list buffers: the first `n` bytes of
the destination are replaced by the first `n` bytes of the source. -/
def memcpyList (dst src : List Nat) (n : Nat) : List Nat :=
  src.take n ++ dst.drop n

/-- The 20-byte `name` field of a TCB as produced by `CRTOS::Task::Create`
(src/CRTOS.cpp lines 1197 and 1219-1220): the field is zero-filled, then
`min(pStringLength(name), 20)` bytes are copied from the source string
(whose in-memory bytes are the characters followed by the terminator). -/
def createName (name : List Nat) : List Nat :=
  let nameLength := pStringLength name
  memcpyList (List.replicate 20 0) (name ++ [0])
    (if nameLength < 20 then nameLength else 20)

/-- A task control block restricted to the fields the scheduler logic
reads: priority, state, blocked-deadline tick and delayed-wake tick. -/
structure TCB where
  priority : Nat
  state : TaskState
  timeout : Nat
  delayUpTo : Nat
deriving DecidableEq, Repr

/-- The promotion applied to one node by `isPendingTask` and
`isHigherPrioTaskPending` (src/CRTOS.cpp lines 608-614 and 631-637):
a DELAYED task whose wake tick has passed becomes READY. -/
def promoteDelayed (tick : Nat) (t : TCB) : TCB :=
  if t.state = TaskState.TASK_DELAYED ∧ tick ≥ t.delayUpTo then
    { t with state := TaskState.TASK_READY }
  else t

/-- `isPendingTask` (src/CRTOS.cpp lines 603-624): walks the ready list,
promoting expired DELAYED tasks as it goes, and returns true at the first
READY task (nodes after it are not visited). -/
def isPendingTask (tick : Nat) : List TCB → List TCB × Bool
  | [] => ([], false)
  | t :: rest =>
    let t' := promoteDelayed tick t
    if t'.state = TaskState.TASK_READY then (t' :: rest, true)
    else
      let p := isPendingTask tick rest
      (t' :: p.1, p.2)

/-- `isHigherPrioTaskPending` (src/CRTOS.cpp lines 626-647): same walk,
but returns true only at a READY task whose priority strictly exceeds
the current task's. -/
def isHigherPrioTaskPending (tick curPriority : Nat) : List TCB → List TCB × Bool
  | [] => ([], false)
  | t :: rest =>
    let t' := promoteDelayed tick t
    if t'.state = TaskState.TASK_READY ∧ curPriority < t'.priority then
      (t' :: rest, true)
    else
      let p := isHigherPrioTaskPending tick curPriority rest
      (t' :: p.1, p.2)

/-- The kernel state read and written by `SysTick_Handler`: the tick
counter, the ready list, and the ICSR PendSV pending bit. -/
structure SysTickState where
  tickCount : Nat
  tasks : List TCB
  pendSV : Bool
deriving DecidableEq, Repr

/-- `SysTick_Handler` (src/CRTOS.cpp lines 996-1010): increments the tick
counter, then pends PendSV exactly when `isPendingTask` reports a READY
task; the walk's promotions are kept either way. -/
def SysTick_Handler (s : SysTickState) : SysTickState :=
  let tick := s.tickCount + 1
  let p := isPendingTask tick s.tasks
  { tickCount := tick, tasks := p.1, pendSV := if p.2 then true else s.pendSV }

/-- Default TCB used with `List.getD`. -/
def dTCB : TCB := ⟨0, TaskState.TASK_READY, 0, 0⟩

/-- Outcome of `CRTOS::BinarySemaphore::signal`: result code, new counter
value, remaining waiter list, and the state of the waiter that was
removed from the head of the list (if any). -/
structure SignalOutcome where
  res : Result
  val : Nat
  waiters : List TCB
  woken : Option TCB
deriving DecidableEq, Repr

/-- `CRTOS::BinarySemaphore::signal` (src/CRTOS.cpp lines 649-677): busy
when the counter is already positive; otherwise the head waiter (when
present) is removed and, if blocked on the semaphore, marked READY — and
the counter is then set to 1 unconditionally (line 671 runs in both the
waiter and no-waiter cases). -/
def BinarySemaphore.signal (val : Nat) (waiters : List TCB) : SignalOutcome :=
  if val > 0 then
    ⟨Result.RESULT_SEMAPHORE_BUSY, val, waiters, none⟩
  else
    match waiters with
    | [] => ⟨Result.RESULT_SUCCESS, 1, [], none⟩
    | w :: rest =>
        ⟨Result.RESULT_SUCCESS, 1, rest,
          some (if w.state = TaskState.TASK_BLOCKED_BY_SEMAPHORE then
                  { w with state := TaskState.TASK_READY }
                else w)⟩

/-- The per-node state update of the `switchCtx` scan (src/CRTOS.cpp
lines 937-968): expired DELAYED and BLOCKED_* tasks become READY.  The
`TASK_RUNNING` case writes `sCurrentTCB->state = TASK_READY`; under the
kernel invariant that the unique RUNNING task is the current one (spec
§3), the node being visited is that task, so the write is modelled
pointwise. -/
def promoteSwitch (tick : Nat) (t : TCB) : TCB :=
  match t.state with
  | TaskState.TASK_DELAYED =>
      if tick ≥ t.delayUpTo then { t with state := TaskState.TASK_READY } else t
  | TaskState.TASK_BLOCKED_BY_SEMAPHORE =>
      if tick ≥ t.timeout then { t with state := TaskState.TASK_READY } else t
  | TaskState.TASK_BLOCKED_BY_QUEUE =>
      if tick ≥ t.timeout then { t with state := TaskState.TASK_READY } else t
  | TaskState.TASK_BLOCKED_BY_CIRC_BUFFER =>
      if tick ≥ t.timeout then { t with state := TaskState.TASK_READY } else t
  | TaskState.TASK_RUNNING => { t with state := TaskState.TASK_READY }
  | _ => t

/-- The single pass of `switchCtx` (src/CRTOS.cpp lines 935-979): updates
each node's state, and tracks the first highest-priority READY node
(strict `>` at line 972, so the earliest node wins ties).  The
accumulator holds the best node's index and priority. -/
def switchScan (tick : Nat) : List TCB → Nat → Option (Nat × Nat) →
    List TCB × Option (Nat × Nat)
  | [], _, best => ([], best)
  | t :: rest, i, best =>
    let t' := promoteSwitch tick t
    let best' :=
      if t'.state = TaskState.TASK_READY then
        match best with
        | none => some (i, t'.priority)
        | some (bi, bp) => if t'.priority > bp then some (i, t'.priority) else some (bi, bp)
      else best
    let r := switchScan tick rest (i + 1) best'
    (t' :: r.1, r.2)

/-- Sets the state of the task at index `i` to RUNNING, as `switchCtx`
does to the selected node's TCB (src/CRTOS.cpp lines 981-985). -/
def setRunningAt (l : List TCB) (i : Nat) : List TCB :=
  l.set i { l.getD i dTCB with state := TaskState.TASK_RUNNING }

/-- The scheduling decision of `switchCtx` (src/CRTOS.cpp lines 912-994),
without the cycle accounting: the scan selects the highest-priority READY
node; if one exists it becomes RUNNING and current (`some index`),
otherwise the idle task is selected (`none`) and marked RUNNING. -/
def switchCtxSelect (tick : Nat) (tasks : List TCB) (idle : TCB) :
    List TCB × Option Nat × TCB :=
  let r := switchScan tick tasks 0 none
  match r.2 with
  | some (i, _) => (setRunningAt r.1 i, some i, idle)
  | none => (r.1, none, { idle with state := TaskState.TASK_RUNNING })

/-- First-max selection over a task list: index and priority of the first
READY node of maximal priority.  Reference function used to state what
`switchScan`'s accumulator computes. -/
def chooseIdx : List TCB → Option (Nat × Nat)
  | [] => none
  | t :: rest =>
    let r := (chooseIdx rest).map (fun p => (p.1 + 1, p.2))
    if t.state = TaskState.TASK_READY then
      match r with
      | none => some (0, t.priority)
      | some (j, bp) => if bp > t.priority then some (j, bp) else some (0, t.priority)
    else r

/-- Default timer used with `List.getD`. -/
def dTimer : SoftwareTimer := ⟨0, 0, false, false⟩

/-- `CRTOS::Timer::Init` (src/CRTOS.cpp lines 503-520) acting on a store
of timers and the timer list of indices into that store: the timer's
fields are initialized and its index is inserted at the head of the list
by `ListInsertAtBeginning` (lines 206-228), with no membership check. -/
def Timer.Init (store : List SoftwareTimer) (tlist : List Nat) (id : Nat)
    (timeoutTicks : Nat) (autoReload : Bool) :
    List SoftwareTimer × List Nat :=
  (store.set id ⟨timeoutTicks, 0, false, autoReload⟩, id :: tlist)

/-- One visit of `TimerISR` to an active timer (src/CRTOS.cpp lines
1056-1072): elapsed is incremented; on reaching the timeout the callback
fires and elapsed resets (the active flag also clears unless
auto-reload).  Returns the updated timer and whether the callback was
invoked. -/
def timerTick (st : SoftwareTimer) : SoftwareTimer × Bool :=
  if st.isActive then
    let e := st.elapsedTicks + 1
    if e ≥ st.timeoutTicks then
      (if st.autoReload then { st with elapsedTicks := 0 }
       else { st with elapsedTicks := 0, isActive := false }, true)
    else ({ st with elapsedTicks := e }, false)
  else (st, false)

/-- One full pass of `TimerISR` over the timer list (src/CRTOS.cpp lines
1053-1074).  List entries are indices into the timer store, so two
entries created by two `Init` calls on the same timer alias a single
timer state.  Returns the updated store and the indices whose callbacks
fired, in invocation order. -/
def timerScan (store : List SoftwareTimer) : List Nat →
    List SoftwareTimer × List Nat
  | [] => (store, [])
  | id :: rest =>
    let r := timerTick (store.getD id dTimer)
    let p := timerScan (store.set id r.1) rest
    (p.1, (if r.2 then [id] else []) ++ p.2)

/-- Byte memory: `memcpy_optimized(m + dst, data, data.length)`. -/
def memWrite (m : Nat → Nat) (dst : Nat) (data : List Nat) : Nat → Nat :=
  fun a => if dst ≤ a ∧ a < dst + data.length then data.getD (a - dst) 0 else m a

/-- Byte memory: reading `len` bytes starting at `src`. -/
def memRead (m : Nat → Nat) (src len : Nat) : List Nat :=
  (List.range len).map (fun i => m (src + i))

/-- `CRTOS::Queue` (src/CRTOS.hpp lines 125-141): storage, front/rear
indices, element count, capacity, and element size.  The storage is the
byte memory behind `mQueue`. -/
structure Queue where
  mQueue : Nat → Nat
  mFront : Nat
  mRear : Nat
  mSize : Nat
  mMaxSize : Nat
  mElementSize : Nat

/-- `CRTOS::Queue::Send` (src/CRTOS.cpp lines 1776-1820) for a valid item
of `mElementSize` bytes and an allocated queue: full queues are rejected,
otherwise the element is copied to slot `mRear`, the rear index advances
modulo capacity and the count grows.  (The waiter wake-up at lines
1802-1810 touches only task states, not the queue; the claim's scenario
has no waiters.) -/
def Queue.Send (q : Queue) (item : List Nat) : Result × Queue :=
  if q.mSize = q.mMaxSize then (Result.RESULT_QUEUE_FULL, q)
  else
    (Result.RESULT_SUCCESS,
      { q with
        mQueue := memWrite q.mQueue (q.mRear * q.mElementSize) item,
        mRear := (q.mRear + 1) % q.mMaxSize,
        mSize := q.mSize + 1 })

/-- `CRTOS::Queue::Receive` (src/CRTOS.cpp lines 1822-1925), immediate
paths for a valid buffer and allocated queue: a non-empty queue yields
the element at slot `mFront` and advances the front index; an empty queue
with zero timeout reports `QueueTimeout`.  (The blocking path suspends
the caller and is outside the claim's no-waiter scenario.) -/
def Queue.Receive (q : Queue) : Result × List Nat × Queue :=
  if q.mSize > 0 then
    (Result.RESULT_SUCCESS,
      memRead q.mQueue (q.mFront * q.mElementSize) q.mElementSize,
      { q with mFront := (q.mFront + 1) % q.mMaxSize, mSize := q.mSize - 1 })
  else
    (Result.RESULT_QUEUE_TIMEOUT, [], q)

/-- N successive sends; collects the result codes. -/
def Queue.sendAll (q : Queue) : List (List Nat) → List Result × Queue
  | [] => ([], q)
  | it :: rest =>
    let s := q.Send it
    let r := Queue.sendAll s.2 rest
    (s.1 :: r.1, r.2)

/-- N successive receives; collects the received elements. -/
def Queue.recvAll (q : Queue) : Nat → List (List Nat) × Queue
  | 0 => ([], q)
  | n + 1 =>
    let s := q.Receive
    let r := Queue.recvAll s.2.2 n
    (s.2.1 :: r.1, r.2)

/-- The sequence of elements currently stored in the queue, oldest
first. -/
def Queue.abs (q : Queue) : List (List Nat) :=
  (List.range q.mSize).map
    (fun i => memRead q.mQueue (((q.mFront + i) % q.mMaxSize) * q.mElementSize) q.mElementSize)

/-- The ring invariant maintained by the queue operations. -/
def Queue.inv (q : Queue) : Prop :=
  q.mFront < q.mMaxSize ∧ q.mRear = (q.mFront + q.mSize) % q.mMaxSize ∧
    q.mSize ≤ q.mMaxSize

/-- The copy performed by `CircularBuffer::Send` (src/CRTOS.cpp lines
2016-2025): one plain copy at the head, or a two-part split when
`head + size` crosses the buffer end. -/
def ringWrite (m : Nat → Nat) (K head : Nat) (data : List Nat) : Nat → Nat :=
  if head + data.length ≤ K then memWrite m head data
  else
    let firstPartSize := K - head
    memWrite (memWrite m head (data.take firstPartSize)) 0
      (data.drop firstPartSize)

/-- The copy performed by `CircularBuffer::Receive` (src/CRTOS.cpp lines
2075-2084): one plain read at the tail, or a two-part split when
`tail + size` crosses the buffer end. -/
def ringRead (m : Nat → Nat) (K tail size : Nat) : List Nat :=
  if tail + size ≤ K then memRead m tail size
  else
    let firstPartSize := K - tail
    memRead m tail firstPartSize ++ memRead m 0 (size - firstPartSize)

/-- `CRTOS::CircularBuffer` (src/CRTOS.hpp lines 143-161): byte storage,
head/tail indices, byte count, and capacity. -/
structure CircularBuffer where
  mBuffer : Nat → Nat
  mHead : Nat
  mTail : Nat
  mCurrentSize : Nat
  mBufferSize : Nat

/-- `CRTOS::CircularBuffer::Send` (src/CRTOS.cpp lines 1987-2044) for an
allocated buffer: empty chunks are rejected, a chunk that would exceed
the capacity reports `CircularBufferFull`, and otherwise the bytes are
copied at `mHead` — split in two parts when `mHead + size` crosses the
buffer end — after which the head advances modulo the capacity.  (The
waiter wake-up at lines 2030-2038 touches only task states.) -/
def CircularBuffer.Send (cb : CircularBuffer) (data : List Nat) :
    Result × CircularBuffer :=
  if data.length = 0 then (Result.RESULT_BAD_PARAMETER, cb)
  else if cb.mCurrentSize + data.length > cb.mBufferSize then
    (Result.RESULT_CIRCULAR_BUFFER_FULL, cb)
  else
    (Result.RESULT_SUCCESS,
      { cb with
        mBuffer := ringWrite cb.mBuffer cb.mBufferSize cb.mHead data,
        mHead := (cb.mHead + data.length) % cb.mBufferSize,
        mCurrentSize := cb.mCurrentSize + data.length })

/-- `CRTOS::CircularBuffer::Receive` (src/CRTOS.cpp lines 2046-2159),
immediate paths for an allocated buffer: a request of zero bytes is
rejected; when enough bytes are available they are read from `mTail`
(split in two parts when `mTail + size` crosses the buffer end) and the
tail advances modulo the capacity; otherwise with zero timeout the call
reports `CircularBufferTimeout`.  (The blocking path suspends the
caller; the claim's chunks are each immediately satisfiable.) -/
def CircularBuffer.Receive (cb : CircularBuffer) (size : Nat) :
    Result × List Nat × CircularBuffer :=
  if size = 0 then (Result.RESULT_BAD_PARAMETER, [], cb)
  else if cb.mCurrentSize ≥ size then
    (Result.RESULT_SUCCESS, ringRead cb.mBuffer cb.mBufferSize cb.mTail size,
      { cb with
        mTail := (cb.mTail + size) % cb.mBufferSize,
        mCurrentSize := cb.mCurrentSize - size })
  else
    (Result.RESULT_CIRCULAR_BUFFER_TIMEOUT, [], cb)

/-- One step of an interleaved byte-stream workload on the circular
buffer. -/
inductive CBOp where
  | send (data : List Nat)
  | recv (size : Nat)
deriving Repr

/-- Runs an interleaved workload, concatenating all bytes delivered by
the receive steps. -/
def CircularBuffer.runOps (cb : CircularBuffer) : List CBOp →
    List Nat × CircularBuffer
  | [] => ([], cb)
  | CBOp.send d :: rest => CircularBuffer.runOps (cb.Send d).2 rest
  | CBOp.recv n :: rest =>
    let s := cb.Receive n
    let r := CircularBuffer.runOps s.2.2 rest
    (s.2.1 ++ r.1, r.2)

/-- Every step of the workload succeeds: sends are non-empty and fit
(the full-check `current + size > capacity` never trips) and receives
are non-empty and immediately satisfiable. -/
def CircularBuffer.opsOK (cb : CircularBuffer) : List CBOp → Prop
  | [] => True
  | CBOp.send d :: rest =>
    0 < d.length ∧ cb.mCurrentSize + d.length ≤ cb.mBufferSize ∧
      CircularBuffer.opsOK (cb.Send d).2 rest
  | CBOp.recv n :: rest =>
    0 < n ∧ n ≤ cb.mCurrentSize ∧
      CircularBuffer.opsOK (cb.Receive n).2.2 rest

/-- The concatenation of all bytes submitted by the send steps. -/
def sentBytes : List CBOp → List Nat
  | [] => []
  | CBOp.send d :: rest => d ++ sentBytes rest
  | CBOp.recv _ :: rest => sentBytes rest

/-- The bytes currently stored in the circular buffer, oldest first. -/
def CircularBuffer.abs (cb : CircularBuffer) : List Nat :=
  (List.range cb.mCurrentSize).map
    (fun i => cb.mBuffer ((cb.mTail + i) % cb.mBufferSize))

/-- The ring invariant maintained by the circular-buffer operations. -/
def CircularBuffer.inv (cb : CircularBuffer) : Prop :=
  cb.mTail < cb.mBufferSize ∧
    cb.mHead = (cb.mTail + cb.mCurrentSize) % cb.mBufferSize ∧
    cb.mCurrentSize ≤ cb.mBufferSize

/-- Combination of two selection accumulators: the later candidate wins
only with strictly greater priority, as in `switchScan`'s update. -/
def mergeBest : Option (Nat × Nat) → Option (Nat × Nat) → Option (Nat × Nat)
  | none, r => r
  | some b, none => some b
  | some (bi, bp), some (j, q) => if q > bp then some (j, q) else some (bi, bp)

/-- C5: evaluating `Timer::Stop` on an active timer: the source's
inverted test returns `RESULT_TIMER_ALREADY_STOPPED` and leaves the timer
active and its elapsed count untouched, contradicting the specified
behaviour (deactivate, reset, return Success). -/
theorem timer_stop_inverted :
    Timer.Stop ⟨100, 5, true, false⟩ =
      (Result.RESULT_TIMER_ALREADY_STOPPED, ⟨100, 5, true, false⟩) ∧
    Timer.Stop ⟨100, 5, false, true⟩ =
      (Result.RESULT_SUCCESS, ⟨100, 0, false, true⟩) := by
  decide

/-- C2: `switchCtx` overwrites the outgoing task's `executionTime` with
the freshly computed cycle delta instead of accumulating it: a task with
accumulated time 100 and a 20-cycle slice ends with `executionTime = 20`,
not `100 + 20`. -/
theorem switchCtx_executionTime_overwrite :
    switchCtxAccount ⟨10, 30, 100⟩ = ⟨10, 30, 20⟩ ∧
      elapsedCyclesCalc 10 30 = 20 ∧ (20 : Nat) ≠ 100 + 20 := by
  decide

/-- C8: for a module header with `data_size = 4`, `bss_size = 0` and
`stack_pointer = msp_limit`, the loader defaults the stack size to 1024
but allocates a RAM region of only `4` bytes — the defaulted stack is not
included because `ramSize` is computed before the default is applied. -/
theorem binModule_ramSize_bug :
    computeBinModRam 4 0 536870912 536870912 = (1024, 4) ∧
      (4 : Nat) ≠ 4 + 0 + 1024 := by
  decide

/-- C1 counterexample: signalling a semaphore with counter 0 and one
blocked waiter sets the counter to 1 — the claim's "the counter remains
0 when a waiter is handed off" fails at this input. -/
theorem binarySemaphore_signal_counterexample :
    (BinarySemaphore.signal 0
      [⟨3, TaskState.TASK_BLOCKED_BY_SEMAPHORE, 0, 0⟩]).val = 1 ∧
    (1 : Nat) ≠ 0 := by
  decide

/-- C1 amended: `signal` returns `SemaphoreBusy` and changes nothing when
the counter is already positive; otherwise, if a blocked waiter heads the
list it is removed and marked READY, and in both non-busy cases the
counter is set to 1 (also when a waiter is handed off). -/
theorem binarySemaphore_signal_amended (val : Nat) (waiters : List TCB) :
    (0 < val → BinarySemaphore.signal val waiters =
      ⟨Result.RESULT_SEMAPHORE_BUSY, val, waiters, none⟩) ∧
    (val = 0 → waiters = [] → BinarySemaphore.signal val waiters =
      ⟨Result.RESULT_SUCCESS, 1, [], none⟩) ∧
    (∀ w rest, val = 0 → waiters = w :: rest →
      w.state = TaskState.TASK_BLOCKED_BY_SEMAPHORE →
      BinarySemaphore.signal val waiters =
        ⟨Result.RESULT_SUCCESS, 1, rest,
          some { w with state := TaskState.TASK_READY }⟩) := by
  refine ⟨?_, ?_, ?_⟩
  · intro h
    simp [BinarySemaphore.signal, h]
  · intro h1 h2
    subst h1; subst h2
    simp [BinarySemaphore.signal]
  · intro w rest h1 h2 h3
    subst h1; subst h2
    simp [BinarySemaphore.signal, h3]

/-- C1 witness: the amended theorem applied at concrete inputs. -/
theorem binarySemaphore_signal_amended_witness :
    BinarySemaphore.signal 1 [] =
      ⟨Result.RESULT_SEMAPHORE_BUSY, 1, [], none⟩ ∧
    BinarySemaphore.signal 0 [] =
      ⟨Result.RESULT_SUCCESS, 1, [], none⟩ ∧
    BinarySemaphore.signal 0 [⟨2, TaskState.TASK_BLOCKED_BY_SEMAPHORE, 7, 0⟩] =
      ⟨Result.RESULT_SUCCESS, 1, [], some ⟨2, TaskState.TASK_READY, 7, 0⟩⟩ :=
  ⟨(binarySemaphore_signal_amended 1 []).1 (by decide),
   (binarySemaphore_signal_amended 0 []).2.1 rfl rfl,
   (binarySemaphore_signal_amended 0 _).2.2
     ⟨2, TaskState.TASK_BLOCKED_BY_SEMAPHORE, 7, 0⟩ [] rfl rfl rfl⟩

/-- C9 counterexample: creating a task with a 20-character name stores 20
characters and no terminator anywhere in the 20-byte field — the claim's
"at most 19 characters, always NUL-terminated" fails at this input. -/
theorem task_create_name_counterexample :
    (createName (List.replicate 20 65)).length = 20 ∧
    (createName (List.replicate 20 65)).all (fun b => b != 0) = true ∧
    (createName (List.replicate 20 65)).getD 19 0 = 65 := by
  decide

/-- C9 amended: `Task::Create` copies `min(strlen + 1, 20)` bytes: a name
of at most 19 characters is stored NUL-terminated (characters then
zeros), while a name of 20 or more characters has exactly its first 20
characters stored with no terminator in the field. -/
theorem task_create_name_amended (name : List Nat) :
    (name.length ≤ 19 →
      createName name = name ++ List.replicate (20 - name.length) 0) ∧
    (20 ≤ name.length → createName name = name.take 20) := by
  constructor
  · intro h
    simp only [createName, memcpyList, pStringLength]
    by_cases h1 : name.length + 1 < 20
    · rw [if_pos h1]
      rw [List.take_of_length_le (by simp)]
      rw [List.drop_replicate]
      rw [List.append_assoc]
      congr 1
      have h2 : 20 - name.length = (20 - (name.length + 1)) + 1 := by omega
      rw [h2, List.replicate_succ]
      rfl
    · rw [if_neg h1]
      have hl : name.length = 19 := by omega
      rw [List.take_of_length_le (by simp [hl])]
      rw [List.drop_replicate]
      simp [hl]
  · intro h
    simp only [createName, memcpyList, pStringLength]
    rw [if_neg (by omega)]
    rw [List.take_append_of_le_length (by omega)]
    rw [List.drop_replicate]
    simp

/-- C9 witness: the amended theorem applied to a 3-character and a
21-character name. -/
theorem task_create_name_amended_witness :
    ((List.replicate 3 66).length ≤ 19 ∧
      createName (List.replicate 3 66) =
        List.replicate 3 66 ++ List.replicate (20 - (List.replicate 3 66).length) 0) ∧
    (20 ≤ (List.replicate 21 67).length ∧
      createName (List.replicate 21 67) = (List.replicate 21 67).take 20) :=
  ⟨⟨by decide, (task_create_name_amended (List.replicate 3 66)).1 (by decide)⟩,
   ⟨by decide, (task_create_name_amended (List.replicate 21 67)).2 (by decide)⟩⟩

/-- `promoteDelayed` either leaves a task unchanged or promotes an
expired DELAYED task to READY. -/
lemma promoteDelayed_cases (tick : Nat) (t : TCB) :
    promoteDelayed tick t = t ∨
      (t.state = TaskState.TASK_DELAYED ∧ t.delayUpTo ≤ tick ∧
        promoteDelayed tick t = { t with state := TaskState.TASK_READY }) := by
  unfold promoteDelayed
  by_cases hc : t.state = TaskState.TASK_DELAYED ∧ tick ≥ t.delayUpTo
  · exact Or.inr ⟨hc.1, hc.2, by rw [if_pos hc]⟩
  · exact Or.inl (by rw [if_neg hc])

/-- The `isPendingTask` walk preserves the list length. -/
lemma isPendingTask_length (tick : Nat) (l : List TCB) :
    (isPendingTask tick l).1.length = l.length := by
  induction l with
  | nil => rfl
  | cons t rest ih =>
    simp only [isPendingTask]
    by_cases h : (promoteDelayed tick t).state = TaskState.TASK_READY
    · simp [h]
    · simp [h, ih]

/-- The `isPendingTask` walk reports true exactly when some task of the
list is READY after its own promotion. -/
lemma isPendingTask_true_iff (tick : Nat) (l : List TCB) :
    (isPendingTask tick l).2 = true ↔
      ∃ t ∈ l, (promoteDelayed tick t).state = TaskState.TASK_READY := by
  induction l with
  | nil => simp [isPendingTask]
  | cons t rest ih =>
    simp only [isPendingTask]
    by_cases h : (promoteDelayed tick t).state = TaskState.TASK_READY
    · simp [h]
    · simp [h, ih]

/-- Each position of the list after the `isPendingTask` walk holds either
the original task or its DELAYED-to-READY promotion; in particular no
BLOCKED task is promoted by the walk. -/
lemma isPendingTask_getD (tick : Nat) (l : List TCB) (i : Nat) :
    (isPendingTask tick l).1.getD i dTCB = l.getD i dTCB ∨
      ((l.getD i dTCB).state = TaskState.TASK_DELAYED ∧
        (l.getD i dTCB).delayUpTo ≤ tick ∧
        (isPendingTask tick l).1.getD i dTCB =
          { l.getD i dTCB with state := TaskState.TASK_READY }) := by
  induction l generalizing i with
  | nil => exact Or.inl rfl
  | cons t rest ih =>
    simp only [isPendingTask]
    by_cases h : (promoteDelayed tick t).state = TaskState.TASK_READY
    · rw [if_pos h]
      cases i with
      | zero => simpa using promoteDelayed_cases tick t
      | succ j => exact Or.inl rfl
    · rw [if_neg h]
      cases i with
      | zero => simpa using promoteDelayed_cases tick t
      | succ j => simpa using ih j

/-- C3 counterexample: with a RUNNING task of priority 5 and a READY task
of priority 3, the SysTick handler pends PendSV even though the kernel's
own `isHigherPrioTaskPending` confirms no READY task outranks the running
one — the claim's "pends PendSV only for strictly higher priority" fails
at this input. -/
theorem sysTick_counterexample :
    (SysTick_Handler ⟨100,
      [⟨5, TaskState.TASK_RUNNING, 0, 0⟩, ⟨3, TaskState.TASK_READY, 0, 0⟩],
      false⟩).pendSV = true ∧
    (isHigherPrioTaskPending 101 5
      [⟨5, TaskState.TASK_RUNNING, 0, 0⟩, ⟨3, TaskState.TASK_READY, 0, 0⟩]).2
      = false := by
  decide

/-- C3 amended: the SysTick handler increments the tick counter; it pends
PendSV if and only if some task of the ready list is READY after
promotion (regardless of priority); the walk changes task states only by
promoting an expired DELAYED task to READY — BLOCKED tasks are not
promoted by the tick handler. -/
theorem sysTick_amended (s : SysTickState) (h : s.pendSV = false) :
    (SysTick_Handler s).tickCount = s.tickCount + 1 ∧
    ((SysTick_Handler s).pendSV = true ↔
      ∃ t ∈ s.tasks,
        (promoteDelayed (s.tickCount + 1) t).state = TaskState.TASK_READY) ∧
    (SysTick_Handler s).tasks.length = s.tasks.length ∧
    (∀ i : Nat,
      (SysTick_Handler s).tasks.getD i dTCB = s.tasks.getD i dTCB ∨
      ((s.tasks.getD i dTCB).state = TaskState.TASK_DELAYED ∧
        (s.tasks.getD i dTCB).delayUpTo ≤ s.tickCount + 1 ∧
        (SysTick_Handler s).tasks.getD i dTCB =
          { s.tasks.getD i dTCB with state := TaskState.TASK_READY })) := by
  have hp : (SysTick_Handler s).pendSV =
      (isPendingTask (s.tickCount + 1) s.tasks).2 := by
    cases hb : (isPendingTask (s.tickCount + 1) s.tasks).2 <;>
      simp [SysTick_Handler, h, hb]
  exact ⟨rfl, by rw [hp]; exact isPendingTask_true_iff _ _,
    isPendingTask_length _ _, fun i => isPendingTask_getD _ _ i⟩

/-- C3 witness: the amended theorem applied to a concrete state with one
expired DELAYED task and one PAUSED task. -/
theorem sysTick_amended_witness :
    (SysTick_Handler ⟨7,
      [⟨1, TaskState.TASK_DELAYED, 0, 5⟩, ⟨2, TaskState.TASK_PAUSED, 0, 0⟩],
      false⟩).tickCount = 7 + 1 ∧
    ((SysTick_Handler ⟨7,
      [⟨1, TaskState.TASK_DELAYED, 0, 5⟩, ⟨2, TaskState.TASK_PAUSED, 0, 0⟩],
      false⟩).pendSV = true ↔
      ∃ t ∈ [(⟨1, TaskState.TASK_DELAYED, 0, 5⟩ : TCB),
             ⟨2, TaskState.TASK_PAUSED, 0, 0⟩],
        (promoteDelayed (7 + 1) t).state = TaskState.TASK_READY) ∧
    (SysTick_Handler ⟨7,
      [⟨1, TaskState.TASK_DELAYED, 0, 5⟩, ⟨2, TaskState.TASK_PAUSED, 0, 0⟩],
      false⟩).tasks.length =
      [(⟨1, TaskState.TASK_DELAYED, 0, 5⟩ : TCB),
       ⟨2, TaskState.TASK_PAUSED, 0, 0⟩].length ∧
    (∀ i : Nat,
      (SysTick_Handler ⟨7,
        [⟨1, TaskState.TASK_DELAYED, 0, 5⟩, ⟨2, TaskState.TASK_PAUSED, 0, 0⟩],
        false⟩).tasks.getD i dTCB =
        [(⟨1, TaskState.TASK_DELAYED, 0, 5⟩ : TCB),
         ⟨2, TaskState.TASK_PAUSED, 0, 0⟩].getD i dTCB ∨
      (([(⟨1, TaskState.TASK_DELAYED, 0, 5⟩ : TCB),
         ⟨2, TaskState.TASK_PAUSED, 0, 0⟩].getD i dTCB).state =
          TaskState.TASK_DELAYED ∧
        ([(⟨1, TaskState.TASK_DELAYED, 0, 5⟩ : TCB),
          ⟨2, TaskState.TASK_PAUSED, 0, 0⟩].getD i dTCB).delayUpTo ≤ 7 + 1 ∧
        (SysTick_Handler ⟨7,
          [⟨1, TaskState.TASK_DELAYED, 0, 5⟩, ⟨2, TaskState.TASK_PAUSED, 0, 0⟩],
          false⟩).tasks.getD i dTCB =
          { [(⟨1, TaskState.TASK_DELAYED, 0, 5⟩ : TCB),
             ⟨2, TaskState.TASK_PAUSED, 0, 0⟩].getD i dTCB with
              state := TaskState.TASK_READY })) :=
  sysTick_amended ⟨7,
    [⟨1, TaskState.TASK_DELAYED, 0, 5⟩, ⟨2, TaskState.TASK_PAUSED, 0, 0⟩],
    false⟩ rfl

/-- C10 counterexample: after two `Init` calls on timer 0 the list holds
two entries for it, yet a scan over those two aliased entries of an
active auto-reload timer with `timeoutTicks = 2` and `elapsedTicks = 0`
fires its callback once, not twice — both entries share one
`elapsedTicks`, so the first visit only advances it. -/
theorem timer_double_init_counterexample :
    (Timer.Init [dTimer] [] 0 2 true).2 = [0] ∧
    (Timer.Init (Timer.Init [dTimer] [] 0 2 true).1 [0] 0 2 true).2 = [0, 0] ∧
    (timerScan [⟨2, 0, true, true⟩] [0, 0]).2 = [0] ∧
    ((timerScan [⟨2, 0, true, true⟩] [0, 0]).2).length ≠ 2 := by
  decide

/-- C10 amended: `Timer::Init` inserts at the head of the timer list
unconditionally, so two `Init` calls on the same timer leave two entries
referencing it and each scan visits it twice; because both entries alias
one timer state, a scan advances `elapsedTicks` by two while short of the
timeout (double rate), and the scan in which an auto-reload timer with
`timeoutTicks ≥ 2` expires invokes its callback once, not twice. -/
theorem timer_double_init_amended (store : List SoftwareTimer)
    (tl : List Nat) (id tt : Nat) (ar : Bool) (t : SoftwareTimer) :
    ((Timer.Init store tl id tt ar).2 = id :: tl ∧
      (Timer.Init (Timer.Init store tl id tt ar).1
        (Timer.Init store tl id tt ar).2 id tt ar).2 = id :: id :: tl) ∧
    (t.isActive = true → t.elapsedTicks + 2 < t.timeoutTicks →
      timerScan [t] [0, 0] =
        ([{ t with elapsedTicks := t.elapsedTicks + 2 }], [])) ∧
    (t.isActive = true → t.autoReload = true →
      t.elapsedTicks + 2 = t.timeoutTicks →
      timerScan [t] [0, 0] = ([{ t with elapsedTicks := 0 }], [0])) := by
  refine ⟨⟨rfl, rfl⟩, ?_, ?_⟩
  · intro ha hlt
    simp only [timerScan, timerTick, List.getD, List.set]
    simp [ha, Nat.not_le.mpr (by omega : t.elapsedTicks + 1 < t.timeoutTicks),
      Nat.not_le.mpr (by omega : t.elapsedTicks + 1 + 1 < t.timeoutTicks)]
  · intro ha har heq
    simp only [timerScan, timerTick, List.getD, List.set]
    simp [ha, har, Nat.not_le.mpr (by omega : t.elapsedTicks + 1 < t.timeoutTicks),
      (by omega : t.timeoutTicks ≤ t.elapsedTicks + 1 + 1)]

/-- C10 witness: the amended theorem applied to concrete timers — a
double-visited active timer short of its timeout advances by two, and an
auto-reload timer with timeout 2 fires once in its expiry scan. -/
theorem timer_double_init_amended_witness :
    (Timer.Init [dTimer] [] 3 9 false).2 = [3] ∧
    timerScan [⟨5, 0, true, true⟩] [0, 0] = ([⟨5, 2, true, true⟩], []) ∧
    timerScan [⟨2, 0, true, true⟩] [0, 0] = ([⟨2, 0, true, true⟩], [0]) :=
  ⟨(timer_double_init_amended [dTimer] [] 3 9 false dTimer).1.1,
   (timer_double_init_amended [] [] 0 0 false ⟨5, 0, true, true⟩).2.1 rfl
     (by decide),
   (timer_double_init_amended [] [] 0 0 false ⟨2, 0, true, true⟩).2.2 rfl rfl
     rfl⟩

/-- The `switchCtx` scan updates every node by `promoteSwitch`. -/
lemma switchScan_fst (tick : Nat) (l : List TCB) : ∀ (i : Nat)
    (best : Option (Nat × Nat)),
    (switchScan tick l i best).1 = l.map (promoteSwitch tick) := by
  induction l with
  | nil => intro i best; rfl
  | cons t rest ih =>
    intro i best
    simp only [switchScan, List.map_cons]
    rw [ih]

/-- `mergeBest` with an empty right side. -/
lemma mergeBest_none (b : Option (Nat × Nat)) : mergeBest b none = b := by
  cases b with
  | none => rfl
  | some p => cases p; rfl

/-- The accumulator of the `switchCtx` scan computes the first-max
selection of the promoted list, combined with the incoming accumulator
(earlier candidates win ties). -/
lemma switchScan_snd (tick : Nat) (l : List TCB) : ∀ (i : Nat)
    (best : Option (Nat × Nat)),
    (switchScan tick l i best).2 =
      mergeBest best ((chooseIdx (l.map (promoteSwitch tick))).map
        (fun p => (p.1 + i, p.2))) := by
  induction l with
  | nil => intro i best; simp [switchScan, chooseIdx, mergeBest_none]
  | cons t rest ih =>
    intro i best
    simp only [switchScan, List.map_cons]
    rw [ih]
    simp only [chooseIdx]
    by_cases hr : (promoteSwitch tick t).state = TaskState.TASK_READY
    · rw [if_pos hr, if_pos hr]
      cases hc : chooseIdx (rest.map (promoteSwitch tick)) with
      | none =>
        cases best with
        | none => simp [mergeBest]
        | some b =>
          obtain ⟨bi, bp⟩ := b
          by_cases hq : (promoteSwitch tick t).priority > bp <;>
            simp [mergeBest, hq]
      | some jq =>
        obtain ⟨j, q⟩ := jq
        simp only [Option.map_some']
        cases best with
        | none =>
          by_cases h1 : q > (promoteSwitch tick t).priority <;>
            simp [mergeBest, h1, Nat.add_comm, Nat.add_assoc, Nat.add_left_comm]
        | some b =>
          obtain ⟨bi, bp⟩ := b
          by_cases h1 : (promoteSwitch tick t).priority > bp
          · by_cases h2 : q > (promoteSwitch tick t).priority
            · have h3 : q > bp := by omega
              simp [mergeBest, h1, h2, h3, Nat.add_comm, Nat.add_assoc,
                Nat.add_left_comm]
            · simp [mergeBest, h1, h2, Nat.add_comm, Nat.add_assoc,
                Nat.add_left_comm]
          · by_cases h2 : q > (promoteSwitch tick t).priority
            · by_cases h3 : q > bp <;>
                simp [mergeBest, h1, h2, h3, Nat.add_comm, Nat.add_assoc,
                  Nat.add_left_comm]
            · have h3 : ¬ q > bp := by omega
              simp [mergeBest, h1, h2, h3, Nat.add_comm, Nat.add_assoc,
                Nat.add_left_comm]
    · rw [if_neg hr, if_neg hr]
      cases hc : chooseIdx (rest.map (promoteSwitch tick)) with
      | none => simp [mergeBest_none]
      | some jq =>
        obtain ⟨j, q⟩ := jq
        simp only [Option.map_some']
        have h4 : j + 1 + i = j + (i + 1) := by omega
        rw [h4]

/-- `chooseIdx` is empty exactly when no task of the list is READY. -/
lemma chooseIdx_eq_none_iff (l : List TCB) :
    chooseIdx l = none ↔ ∀ t ∈ l, t.state ≠ TaskState.TASK_READY := by
  induction l with
  | nil => simp [chooseIdx]
  | cons t rest ih =>
    simp only [chooseIdx]
    by_cases h : t.state = TaskState.TASK_READY
    · rw [if_pos h]
      cases hc : chooseIdx rest with
      | none => simp [h]
      | some jq =>
        obtain ⟨j, q⟩ := jq
        by_cases hq : q > t.priority <;> simp [h, hq]
    · rw [if_neg h]
      cases hc : chooseIdx rest with
      | none =>
        simp only [Option.map_none', true_iff, List.mem_cons]
        intro t' ht'
        rcases ht' with rfl | ht'
        · exact h
        · exact ih.mp hc t' ht'
      | some jq =>
        obtain ⟨j, q⟩ := jq
        simp only [Option.map_some']
        constructor
        · intro hcontra; exact absurd hcontra (by simp)
        · intro hall
          have : chooseIdx rest = none := ih.mpr (fun t' ht' => hall t' (by simp [ht']))
          rw [this] at hc; exact absurd hc (by simp)

/-- If `chooseIdx` picks `(i, p)` then position `i` holds the first READY
task of maximal priority `p`. -/
lemma chooseIdx_spec (l : List TCB) : ∀ (i p : Nat),
    chooseIdx l = some (i, p) →
    i < l.length ∧ (l.getD i dTCB).state = TaskState.TASK_READY ∧
    (l.getD i dTCB).priority = p ∧
    (∀ t ∈ l, t.state = TaskState.TASK_READY → t.priority ≤ p) ∧
    (∀ j, j < i → (l.getD j dTCB).state = TaskState.TASK_READY →
      (l.getD j dTCB).priority < p) := by
  induction l with
  | nil => intro i p h; simp [chooseIdx] at h
  | cons t rest ih =>
    intro i p h
    simp only [chooseIdx] at h
    by_cases hr : t.state = TaskState.TASK_READY
    · rw [if_pos hr] at h
      cases hc : chooseIdx rest with
      | none =>
        rw [hc] at h
        simp only [Option.map_none'] at h
        obtain ⟨rfl, rfl⟩ : 0 = i ∧ t.priority = p := by
          constructor <;> [exact (Option.some.inj h ▸ rfl : (0, t.priority).1 = i);
            exact (Option.some.inj h ▸ rfl : (0, t.priority).2 = p)]
        have hnone := (chooseIdx_eq_none_iff rest).mp hc
        refine ⟨by simp, by simpa using hr, by simp, ?_, ?_⟩
        · intro t' ht' hready
          rcases List.mem_cons.mp ht' with rfl | hm
          · exact le_refl _
          · exact absurd hready (hnone t' hm)
        · intro j hj; omega
      | some jq =>
        obtain ⟨j, q⟩ := jq
        rw [hc] at h
        simp only [Option.map_some'] at h
        obtain ⟨hj1, hj2, hj3, hj4, hj5⟩ := ih j q hc
        by_cases hq : q > t.priority
        · rw [if_pos hq] at h
          obtain ⟨rfl, rfl⟩ : j + 1 = i ∧ q = p :=
            ⟨congrArg Prod.fst (Option.some.inj h),
             congrArg Prod.snd (Option.some.inj h)⟩
          refine ⟨by simpa using hj1, by simpa using hj2, by simpa using hj3,
            ?_, ?_⟩
          · intro t' ht' hready
            rcases List.mem_cons.mp ht' with rfl | hm
            · exact Nat.le_of_lt hq
            · exact hj4 t' hm hready
          · intro k hk
            cases k with
            | zero => intro _; simpa using hq
            | succ k' =>
              intro hks
              have : k' < j := by omega
              simpa using hj5 k' this (by simpa using hks)
        · rw [if_neg hq] at h
          obtain ⟨rfl, rfl⟩ : 0 = i ∧ t.priority = p :=
            ⟨congrArg Prod.fst (Option.some.inj h),
             congrArg Prod.snd (Option.some.inj h)⟩
          refine ⟨by simp, by simpa using hr, by simp, ?_, ?_⟩
          · intro t' ht' hready
            rcases List.mem_cons.mp ht' with rfl | hm
            · exact le_refl _
            · exact Nat.le_trans (hj4 t' hm hready) (by omega)
          · intro j' hj'; omega
    · rw [if_neg hr] at h
      cases hc : chooseIdx rest with
      | none => rw [hc] at h; simp at h
      | some jq =>
        obtain ⟨j, q⟩ := jq
        rw [hc] at h
        simp only [Option.map_some'] at h
        obtain ⟨rfl, rfl⟩ : j + 1 = i ∧ q = p :=
          ⟨congrArg Prod.fst (Option.some.inj h),
           congrArg Prod.snd (Option.some.inj h)⟩
        obtain ⟨hj1, hj2, hj3, hj4, hj5⟩ := ih j q hc
        refine ⟨by simpa using hj1, by simpa using hj2, by simpa using hj3,
          ?_, ?_⟩
        · intro t' ht' hready
          rcases List.mem_cons.mp ht' with rfl | hm
          · exact absurd hready hr
          · exact hj4 t' hm hready
        · intro k hk
          cases k with
          | zero => intro hks; exact absurd (by simpa using hks) hr
          | succ k' =>
            intro hks
            have : k' < j := by omega
            simpa using hj5 k' this (by simpa using hks)

/-- C4: every `switchCtx` scheduling decision picks, among the tasks that
are READY once the scan's state updates are applied, the one of maximum
priority — the first such task in ready-list order on ties — marks it
RUNNING and makes it current; when no task is READY the idle task is
selected and becomes RUNNING. -/
theorem switchCtx_selects_highest (tick : Nat) (tasks : List TCB) (idle : TCB) :
    ((∃ t ∈ tasks.map (promoteSwitch tick), t.state = TaskState.TASK_READY) →
      ∃ i, (switchCtxSelect tick tasks idle).2.1 = some i ∧
        i < tasks.length ∧
        ((tasks.map (promoteSwitch tick)).getD i dTCB).state =
          TaskState.TASK_READY ∧
        (∀ t ∈ tasks.map (promoteSwitch tick),
          t.state = TaskState.TASK_READY →
          t.priority ≤ ((tasks.map (promoteSwitch tick)).getD i dTCB).priority) ∧
        (∀ j, j < i →
          ((tasks.map (promoteSwitch tick)).getD j dTCB).state =
            TaskState.TASK_READY →
          ((tasks.map (promoteSwitch tick)).getD j dTCB).priority <
            ((tasks.map (promoteSwitch tick)).getD i dTCB).priority) ∧
        (switchCtxSelect tick tasks idle).1 =
          setRunningAt (tasks.map (promoteSwitch tick)) i) ∧
    ((∀ t ∈ tasks.map (promoteSwitch tick), t.state ≠ TaskState.TASK_READY) →
      (switchCtxSelect tick tasks idle).2.1 = none ∧
      (switchCtxSelect tick tasks idle).1 = tasks.map (promoteSwitch tick) ∧
      (switchCtxSelect tick tasks idle).2.2.state = TaskState.TASK_RUNNING) := by
  cases hch : chooseIdx (tasks.map (promoteSwitch tick)) with
  | none =>
    have h2 : (switchScan tick tasks 0 none).2 = none := by
      rw [switchScan_snd, hch]; rfl
    have hsel : switchCtxSelect tick tasks idle =
        ((switchScan tick tasks 0 none).1, none,
          { idle with state := TaskState.TASK_RUNNING }) := by
      unfold switchCtxSelect
      simp only [h2]
    constructor
    · rintro ⟨t, ht, hready⟩
      exact absurd hready
        ((chooseIdx_eq_none_iff (tasks.map (promoteSwitch tick))).mp hch t ht)
    · intro _
      rw [hsel]
      exact ⟨rfl, switchScan_fst tick tasks 0 none, rfl⟩
  | some ip =>
    obtain ⟨i, p⟩ := ip
    have h2 : (switchScan tick tasks 0 none).2 = some (i, p) := by
      rw [switchScan_snd, hch]; rfl
    have hsel : switchCtxSelect tick tasks idle =
        (setRunningAt (switchScan tick tasks 0 none).1 i, some i, idle) := by
      unfold switchCtxSelect
      simp only [h2]
    obtain ⟨hm1, hm2, hm3, hm4, hm5⟩ :=
      chooseIdx_spec (tasks.map (promoteSwitch tick)) i p hch
    constructor
    · intro _
      refine ⟨i, by rw [hsel], by simpa using hm1, hm2, ?_, ?_, ?_⟩
      · intro t ht hready
        rw [hm3]
        exact hm4 t ht hready
      · intro j hj hready
        rw [hm3]
        exact hm5 j hj hready
      · rw [hsel, switchScan_fst]
    · intro hall
      exact absurd hch
        (by rw [(chooseIdx_eq_none_iff (tasks.map (promoteSwitch tick))).mpr hall]
            simp)

/-- C4 witness: the selection theorem applied to a concrete ready list
with a priority tie (the first maximal READY task wins) and to a list
with no READY task (the idle task is selected). -/
theorem switchCtx_selects_highest_witness :
    (∃ t ∈ [⟨2, TaskState.TASK_READY, 0, 0⟩, ⟨7, TaskState.TASK_DELAYED, 0, 3⟩,
        (⟨7, TaskState.TASK_READY, 0, 0⟩ : TCB)].map (promoteSwitch 5),
      t.state = TaskState.TASK_READY) ∧
    (∃ i, (switchCtxSelect 5
        [⟨2, TaskState.TASK_READY, 0, 0⟩, ⟨7, TaskState.TASK_DELAYED, 0, 3⟩,
         ⟨7, TaskState.TASK_READY, 0, 0⟩] ⟨0, TaskState.TASK_READY, 0, 0⟩).2.1 =
        some i ∧
      i < [⟨2, TaskState.TASK_READY, 0, 0⟩, ⟨7, TaskState.TASK_DELAYED, 0, 3⟩,
        (⟨7, TaskState.TASK_READY, 0, 0⟩ : TCB)].length ∧
      (([⟨2, TaskState.TASK_READY, 0, 0⟩, ⟨7, TaskState.TASK_DELAYED, 0, 3⟩,
        (⟨7, TaskState.TASK_READY, 0, 0⟩ : TCB)].map
          (promoteSwitch 5)).getD i dTCB).state = TaskState.TASK_READY ∧
      (∀ t ∈ [⟨2, TaskState.TASK_READY, 0, 0⟩, ⟨7, TaskState.TASK_DELAYED, 0, 3⟩,
          (⟨7, TaskState.TASK_READY, 0, 0⟩ : TCB)].map (promoteSwitch 5),
        t.state = TaskState.TASK_READY →
        t.priority ≤
          (([⟨2, TaskState.TASK_READY, 0, 0⟩, ⟨7, TaskState.TASK_DELAYED, 0, 3⟩,
            (⟨7, TaskState.TASK_READY, 0, 0⟩ : TCB)].map
              (promoteSwitch 5)).getD i dTCB).priority) ∧
      (∀ j, j < i →
        (([⟨2, TaskState.TASK_READY, 0, 0⟩, ⟨7, TaskState.TASK_DELAYED, 0, 3⟩,
          (⟨7, TaskState.TASK_READY, 0, 0⟩ : TCB)].map
            (promoteSwitch 5)).getD j dTCB).state = TaskState.TASK_READY →
        (([⟨2, TaskState.TASK_READY, 0, 0⟩, ⟨7, TaskState.TASK_DELAYED, 0, 3⟩,
          (⟨7, TaskState.TASK_READY, 0, 0⟩ : TCB)].map
            (promoteSwitch 5)).getD j dTCB).priority <
          (([⟨2, TaskState.TASK_READY, 0, 0⟩, ⟨7, TaskState.TASK_DELAYED, 0, 3⟩,
            (⟨7, TaskState.TASK_READY, 0, 0⟩ : TCB)].map
              (promoteSwitch 5)).getD i dTCB).priority) ∧
      (switchCtxSelect 5
        [⟨2, TaskState.TASK_READY, 0, 0⟩, ⟨7, TaskState.TASK_DELAYED, 0, 3⟩,
         ⟨7, TaskState.TASK_READY, 0, 0⟩] ⟨0, TaskState.TASK_READY, 0, 0⟩).1 =
        setRunningAt
          ([⟨2, TaskState.TASK_READY, 0, 0⟩, ⟨7, TaskState.TASK_DELAYED, 0, 3⟩,
            (⟨7, TaskState.TASK_READY, 0, 0⟩ : TCB)].map (promoteSwitch 5)) i) ∧
    ((switchCtxSelect 0 [⟨4, TaskState.TASK_PAUSED, 0, 0⟩]
        ⟨0, TaskState.TASK_READY, 0, 0⟩).2.1 = none ∧
      (switchCtxSelect 0 [⟨4, TaskState.TASK_PAUSED, 0, 0⟩]
        ⟨0, TaskState.TASK_READY, 0, 0⟩).1 =
        [(⟨4, TaskState.TASK_PAUSED, 0, 0⟩ : TCB)].map (promoteSwitch 0) ∧
      (switchCtxSelect 0 [⟨4, TaskState.TASK_PAUSED, 0, 0⟩]
        ⟨0, TaskState.TASK_READY, 0, 0⟩).2.2.state = TaskState.TASK_RUNNING) :=
  ⟨by decide,
   (switchCtx_selects_highest 5
     [⟨2, TaskState.TASK_READY, 0, 0⟩, ⟨7, TaskState.TASK_DELAYED, 0, 3⟩,
      ⟨7, TaskState.TASK_READY, 0, 0⟩] ⟨0, TaskState.TASK_READY, 0, 0⟩).1
     (by decide),
   (switchCtx_selects_highest 0 [⟨4, TaskState.TASK_PAUSED, 0, 0⟩]
     ⟨0, TaskState.TASK_READY, 0, 0⟩).2 (by decide)⟩

/-- Reading back a freshly written region returns the written bytes. -/
lemma memWrite_read_back (m : Nat → Nat) (dst : Nat) (item : List Nat) :
    memRead (memWrite m dst item) dst item.length = item := by
  apply List.ext_getElem
  · simp [memRead]
  · intro i h1 h2
    simp only [memRead, List.getElem_map, List.getElem_range]
    have h3 : i < item.length := by simpa [memRead] using h2
    have hc : dst ≤ dst + i ∧ dst + i < dst + item.length := by omega
    show (if dst ≤ dst + i ∧ dst + i < dst + item.length then
        item.getD (dst + i - dst) 0 else m (dst + i)) = item[i]
    rw [if_pos hc]
    have h4 : dst + i - dst = i := by omega
    rw [h4, List.getD_eq_getElem item 0 h3]

/-- A write leaves positions outside its range unchanged. -/
lemma memWrite_outside (m : Nat → Nat) (dst : Nat) (item : List Nat)
    (a : Nat) (h : a < dst ∨ dst + item.length ≤ a) :
    memWrite m dst item a = m a := by
  show (if dst ≤ a ∧ a < dst + item.length then item.getD (a - dst) 0
      else m a) = m a
  rw [if_neg (by omega)]

/-- Reading a region disjoint from a write returns the old bytes. -/
lemma memRead_write_disjoint (m : Nat → Nat) (dst src len : Nat)
    (item : List Nat) (h : src + len ≤ dst ∨ dst + item.length ≤ src) :
    memRead (memWrite m dst item) src len = memRead m src len := by
  apply List.ext_getElem
  · simp [memRead]
  · intro i h1 h2
    simp only [memRead, List.getElem_map, List.getElem_range]
    have h3 : i < len := by simpa [memRead] using h1
    rw [memWrite_outside]
    omega

/-- Distinct slots of an element-aligned ring occupy disjoint byte
ranges. -/
lemma slot_disjoint (E s r : Nat) (h : s ≠ r) :
    s * E + E ≤ r * E ∨ r * E + E ≤ s * E := by
  rcases Nat.lt_or_ge s r with h1 | h1
  · left
    calc s * E + E = (s + 1) * E := by ring
      _ ≤ r * E := Nat.mul_le_mul_right E h1
  · right
    have h2 : r < s := by omega
    calc r * E + E = (r + 1) * E := by ring
      _ ≤ s * E := Nat.mul_le_mul_right E h2

/-- Reading one ring slot is unaffected by a write to a different
slot. -/
lemma memRead_slot_write (m : Nat → Nat) (E s r : Nat) (item : List Nat)
    (hlen : item.length = E) (h : s ≠ r) :
    memRead (memWrite m (r * E) item) (s * E) E = memRead m (s * E) E := by
  apply memRead_write_disjoint
  rw [hlen]
  exact slot_disjoint E s r h

/-- Offsets that stay below the ring size are distinct modulo it when the
unshifted indexes are. -/
lemma mod_distinct (C a i j : Nat) (hi : i < C) (hj : j < C) (hne : i ≠ j) :
    (a + i) % C ≠ (a + j) % C := by
  intro h
  apply hne
  have h3 : i % C = j % C := Nat.ModEq.add_left_cancel' a h
  rwa [Nat.mod_eq_of_lt hi, Nat.mod_eq_of_lt hj] at h3

/-- A successful `Send` appends the item to the queue's abstract
content and preserves the ring invariant. -/
lemma queueSend_spec (q : Queue) (item : List Nat) (hinv : q.inv)
    (hfull : q.mSize < q.mMaxSize) (hlen : item.length = q.mElementSize) :
    (q.Send item).1 = Result.RESULT_SUCCESS ∧
    (q.Send item).2.inv ∧
    (q.Send item).2.abs = q.abs ++ [item] ∧
    (q.Send item).2.mMaxSize = q.mMaxSize ∧
    (q.Send item).2.mElementSize = q.mElementSize ∧
    (q.Send item).2.mSize = q.mSize + 1 ∧
    (q.Send item).2.mFront = q.mFront := by
  obtain ⟨hf, hr, hs⟩ := hinv
  have hC : 0 < q.mMaxSize := by omega
  have hsend : q.Send item =
      (Result.RESULT_SUCCESS,
        { q with
          mQueue := memWrite q.mQueue (q.mRear * q.mElementSize) item,
          mRear := (q.mRear + 1) % q.mMaxSize,
          mSize := q.mSize + 1 }) := by
    unfold Queue.Send
    rw [if_neg (by omega)]
  refine ⟨by rw [hsend], ⟨by simpa [hsend] using hf, ?_, by simp [hsend]; omega⟩,
    ?_, by simp [hsend], by simp [hsend], by simp [hsend], by simp [hsend]⟩
  · show (q.Send item).2.mRear =
      ((q.Send item).2.mFront + (q.Send item).2.mSize) % (q.Send item).2.mMaxSize
    rw [hsend]
    show (q.mRear + 1) % q.mMaxSize = (q.mFront + (q.mSize + 1)) % q.mMaxSize
    rw [hr, Nat.mod_add_mod]
    rfl
  · show (q.Send item).2.abs = q.abs ++ [item]
    rw [hsend]
    show (List.range (q.mSize + 1)).map
        (fun i => memRead (memWrite q.mQueue (q.mRear * q.mElementSize) item)
          (((q.mFront + i) % q.mMaxSize) * q.mElementSize) q.mElementSize) =
      q.abs ++ [item]
    rw [List.range_succ, List.map_append]
    congr 1
    · show _ = q.abs
      unfold Queue.abs
      apply List.map_congr_left
      intro i hi
      have hilt : i < q.mSize := List.mem_range.mp hi
      rw [hr]
      apply memRead_slot_write
      · exact hlen
      · exact mod_distinct q.mMaxSize q.mFront i q.mSize (by omega) (by omega)
          (by omega)
    · show [_] = [item]
      congr 1
      rw [hr, ← hlen]
      exact memWrite_read_back q.mQueue ((q.mFront + q.mSize) % q.mMaxSize * item.length) item

/-- A `Receive` on a non-empty queue returns the oldest element, drops it
from the abstract content, and preserves the ring invariant. -/
lemma queueReceive_spec (q : Queue) (hinv : q.inv) (hC : 0 < q.mMaxSize)
    (hpos : 0 < q.mSize) :
    (q.Receive).1 = Result.RESULT_SUCCESS ∧
    (q.Receive).2.1 = q.abs.getD 0 [] ∧
    (q.Receive).2.2.inv ∧
    (q.Receive).2.2.abs = q.abs.drop 1 ∧
    (q.Receive).2.2.mMaxSize = q.mMaxSize ∧
    (q.Receive).2.2.mElementSize = q.mElementSize ∧
    (q.Receive).2.2.mSize = q.mSize - 1 := by
  obtain ⟨hf, hr, hs⟩ := hinv
  have hrecv : q.Receive =
      (Result.RESULT_SUCCESS,
        memRead q.mQueue (q.mFront * q.mElementSize) q.mElementSize,
        { q with mFront := (q.mFront + 1) % q.mMaxSize,
                 mSize := q.mSize - 1 }) := by
    unfold Queue.Receive
    rw [if_pos hpos]
  have habs : q.abs = (List.range q.mSize).map
      (fun i => memRead q.mQueue
        (((q.mFront + i) % q.mMaxSize) * q.mElementSize) q.mElementSize) := rfl
  have hsz : q.mSize = (q.mSize - 1) + 1 := by omega
  have hsplit : q.abs =
      memRead q.mQueue ((q.mFront % q.mMaxSize) * q.mElementSize) q.mElementSize ::
        (List.range (q.mSize - 1)).map
          (fun i => memRead q.mQueue
            (((q.mFront + (i + 1)) % q.mMaxSize) * q.mElementSize)
            q.mElementSize) := by
    rw [habs, hsz, List.range_succ_eq_map, List.map_cons, List.map_map]
    rfl
  refine ⟨by rw [hrecv], ?_, ⟨?_, ?_, ?_⟩, ?_, by simp [hrecv], by simp [hrecv],
    by simp [hrecv]⟩
  · rw [hrecv, hsplit]
    show memRead q.mQueue (q.mFront * q.mElementSize) q.mElementSize =
      memRead q.mQueue ((q.mFront % q.mMaxSize) * q.mElementSize) q.mElementSize
    rw [Nat.mod_eq_of_lt hf]
  · show (q.Receive).2.2.mFront < (q.Receive).2.2.mMaxSize
    rw [hrecv]
    exact Nat.mod_lt _ hC
  · show (q.Receive).2.2.mRear =
      ((q.Receive).2.2.mFront + (q.Receive).2.2.mSize) % (q.Receive).2.2.mMaxSize
    rw [hrecv]
    show q.mRear = ((q.mFront + 1) % q.mMaxSize + (q.mSize - 1)) % q.mMaxSize
    rw [hr, Nat.mod_add_mod]
    congr 1
    omega
  · show (q.Receive).2.2.mSize ≤ (q.Receive).2.2.mMaxSize
    rw [hrecv]
    show q.mSize - 1 ≤ q.mMaxSize
    omega
  · show (q.Receive).2.2.abs = q.abs.drop 1
    rw [hsplit, List.drop_one, List.tail_cons, hrecv]
    show (List.range (q.mSize - 1)).map
        (fun i => memRead q.mQueue
          ((((q.mFront + 1) % q.mMaxSize + i) % q.mMaxSize) * q.mElementSize)
          q.mElementSize) = _
    apply List.map_congr_left
    intro i hi
    rw [Nat.mod_add_mod]
    have h6 : q.mFront + 1 + i = q.mFront + (i + 1) := by omega
    rw [h6]

/-- The queue's abstract content has `mSize` elements. -/
lemma queueAbs_length (q : Queue) : q.abs.length = q.mSize := by
  simp [Queue.abs]

/-- N successive sends that fit in the capacity all succeed and append
the items in order. -/
lemma Queue.sendAll_spec (items : List (List Nat)) : ∀ (q : Queue),
    q.inv → (∀ it ∈ items, it.length = q.mElementSize) →
    q.mSize + items.length ≤ q.mMaxSize →
    (q.sendAll items).1 = List.replicate items.length Result.RESULT_SUCCESS ∧
    (q.sendAll items).2.inv ∧
    (q.sendAll items).2.abs = q.abs ++ items ∧
    (q.sendAll items).2.mMaxSize = q.mMaxSize ∧
    (q.sendAll items).2.mElementSize = q.mElementSize ∧
    (q.sendAll items).2.mSize = q.mSize + items.length := by
  induction items with
  | nil =>
    intro q hinv hE hcap
    exact ⟨rfl, hinv, by simp [Queue.sendAll], rfl, rfl, rfl⟩
  | cons it rest ih =>
    intro q hinv hE hcap
    have hfull : q.mSize < q.mMaxSize := by
      simp only [List.length_cons] at hcap; omega
    have hlen : it.length = q.mElementSize := hE it (by simp)
    obtain ⟨s1, s2, s3, s4, s5, s6, s7⟩ := queueSend_spec q it hinv hfull hlen
    obtain ⟨i1, i2, i3, i4, i5, i6⟩ := ih (q.Send it).2 s2
      (fun x hx => by rw [s5]; exact hE x (by simp [hx]))
      (by rw [s6, s4]; simp only [List.length_cons] at hcap; omega)
    simp only [Queue.sendAll]
    refine ⟨?_, i2, ?_, by rw [i4, s4], by rw [i5, s5], ?_⟩
    · rw [i1, s1, List.length_cons, List.replicate_succ]
    · rw [i3, s3, List.append_assoc]
      rfl
    · rw [i6, s6, List.length_cons]
      omega

/-- N successive receives from a queue holding at least N elements
return the first N elements of the abstract content and drop them. -/
lemma Queue.recvAll_spec (n : Nat) : ∀ (q : Queue),
    q.inv → 0 < q.mMaxSize → n ≤ q.mSize →
    (q.recvAll n).1 = q.abs.take n ∧
    (q.recvAll n).2.inv ∧
    (q.recvAll n).2.abs = q.abs.drop n ∧
    (q.recvAll n).2.mSize = q.mSize - n ∧
    (q.recvAll n).2.mMaxSize = q.mMaxSize := by
  induction n with
  | zero =>
    intro q hinv hC hle
    exact ⟨by simp [Queue.recvAll], hinv, by simp [Queue.recvAll],
      by simp [Queue.recvAll], rfl⟩
  | succ k ih =>
    intro q hinv hC hle
    have hpos : 0 < q.mSize := by omega
    obtain ⟨r1, r2, r3, r4, r5, r6, r7⟩ := queueReceive_spec q hinv hC hpos
    obtain ⟨j1, j2, j3, j4, j5⟩ := ih (q.Receive).2.2 r3 (by rw [r5]; exact hC)
      (by rw [r7]; omega)
    have hlen : q.abs.length = q.mSize := queueAbs_length q
    obtain ⟨a, l, habs⟩ : ∃ a l, q.abs = a :: l := by
      cases hcase : q.abs with
      | nil => rw [hcase] at hlen; simp at hlen; omega
      | cons a l => exact ⟨a, l, rfl⟩
    simp only [Queue.recvAll]
    refine ⟨?_, j2, ?_, ?_, by rw [j5, r5]⟩
    · rw [j1, r2, r4, habs]
      simp
    · rw [j3, r4, habs]
      simp
    · rw [j4, r7]
      omega

/-- C6: queue FIFO round-trip — starting from an empty queue with
capacity C and element size E (no waiters), N ≤ C successive sends all
return Success, and N receives then return exactly the sent elements in
order, leaving the queue empty. -/
theorem queue_roundtrip (C E r : Nat) (m0 : Nat → Nat)
    (items : List (List Nat)) (hr : r < C) (hN : items.length ≤ C)
    (hE : ∀ it ∈ items, it.length = E) :
    (Queue.sendAll ⟨m0, r, r, 0, C, E⟩ items).1 =
      List.replicate items.length Result.RESULT_SUCCESS ∧
    (Queue.recvAll (Queue.sendAll ⟨m0, r, r, 0, C, E⟩ items).2
      items.length).1 = items ∧
    (Queue.recvAll (Queue.sendAll ⟨m0, r, r, 0, C, E⟩ items).2
      items.length).2.mSize = 0 := by
  have hC : 0 < C := by omega
  have hinv : (⟨m0, r, r, 0, C, E⟩ : Queue).inv := by
    refine ⟨hr, ?_, Nat.zero_le C⟩
    show r = (r + 0) % C
    simp [Nat.mod_eq_of_lt hr]
  obtain ⟨s1, s2, s3, s4, s5, s6⟩ := Queue.sendAll_spec items _ hinv
    (by simpa using hE) (by simpa using hN)
  have habs0 : (⟨m0, r, r, 0, C, E⟩ : Queue).abs = [] := by simp [Queue.abs]
  have hq1abs : (Queue.sendAll ⟨m0, r, r, 0, C, E⟩ items).2.abs = items := by
    rw [s3, habs0]; rfl
  obtain ⟨t1, t2, t3, t4, t5⟩ := Queue.recvAll_spec items.length _ s2
    (by rw [s4]; exact hC) (by rw [s6]; simp)
  refine ⟨s1, ?_, ?_⟩
  · rw [t1, hq1abs, List.take_of_length_le (le_refl _)]
  · rw [t4, s6]
    simp

/-- C6 witness: the round-trip theorem applied to a queue of capacity 3
and element size 2 starting at ring position 1 (so the third send wraps),
with three two-byte elements. -/
theorem queue_roundtrip_witness :
    ((1 : Nat) < 3 ∧ ([[1, 2], [3, 4], [5, 6]] : List (List Nat)).length ≤ 3 ∧
      (∀ it ∈ ([[1, 2], [3, 4], [5, 6]] : List (List Nat)), it.length = 2)) ∧
    (Queue.sendAll ⟨fun _ => 7, 1, 1, 0, 3, 2⟩ [[1, 2], [3, 4], [5, 6]]).1 =
      List.replicate ([[1, 2], [3, 4], [5, 6]] : List (List Nat)).length
        Result.RESULT_SUCCESS ∧
    (Queue.recvAll
      (Queue.sendAll ⟨fun _ => 7, 1, 1, 0, 3, 2⟩ [[1, 2], [3, 4], [5, 6]]).2
      ([[1, 2], [3, 4], [5, 6]] : List (List Nat)).length).1 =
      [[1, 2], [3, 4], [5, 6]] ∧
    (Queue.recvAll
      (Queue.sendAll ⟨fun _ => 7, 1, 1, 0, 3, 2⟩ [[1, 2], [3, 4], [5, 6]]).2
      ([[1, 2], [3, 4], [5, 6]] : List (List Nat)).length).2.mSize = 0 :=
  ⟨⟨by decide, by decide, by decide⟩,
   (queue_roundtrip 3 2 1 (fun _ => 7) [[1, 2], [3, 4], [5, 6]] (by decide)
     (by decide) (by decide)).1,
   (queue_roundtrip 3 2 1 (fun _ => 7) [[1, 2], [3, 4], [5, 6]] (by decide)
     (by decide) (by decide)).2.1,
   (queue_roundtrip 3 2 1 (fun _ => 7) [[1, 2], [3, 4], [5, 6]] (by decide)
     (by decide) (by decide)).2.2⟩

/-- `getD` of a `take` below the cut is `getD` of the original list. -/
lemma getD_take (l : List Nat) : ∀ (n i : Nat), i < n →
    (l.take n).getD i 0 = l.getD i 0 := by
  induction l with
  | nil => intro n i _; simp
  | cons a l ih =>
    intro n i h
    cases n with
    | zero => omega
    | succ n' =>
      cases i with
      | zero => simp
      | succ i' =>
        simp only [List.take_succ_cons, List.getD_cons_succ]
        exact ih n' i' (by omega)

/-- `getD` of a `drop` shifts the index. -/
lemma getD_drop (l : List Nat) : ∀ (n i : Nat),
    (l.drop n).getD i 0 = l.getD (n + i) 0 := by
  induction l with
  | nil => intro n i; simp
  | cons a l ih =>
    intro n i
    cases n with
    | zero => simp
    | succ n' =>
      simp only [List.drop_succ_cons]
      have h : n' + 1 + i = (n' + i) + 1 := by omega
      rw [h, List.getD_cons_succ]
      exact ih n' i

/-- The split copy of `CircularBuffer::Send` places byte `i` of the data
at ring position `(head + i) % K`. -/
lemma ringWrite_at (m : Nat → Nat) (K head : Nat) (data : List Nat)
    (hhead : head < K) (hlen : data.length ≤ K) (i : Nat)
    (hi : i < data.length) :
    ringWrite m K head data ((head + i) % K) = data.getD i 0 := by
  unfold ringWrite
  by_cases h : head + data.length ≤ K
  · rw [if_pos h]
    have h1 : head + i < K := by omega
    rw [Nat.mod_eq_of_lt h1]
    show (if head ≤ head + i ∧ head + i < head + data.length then
        data.getD (head + i - head) 0 else m (head + i)) = data.getD i 0
    rw [if_pos (by omega)]
    congr 1
    omega
  · rw [if_neg h]
    by_cases h2 : i < K - head
    · have h1 : head + i < K := by omega
      rw [Nat.mod_eq_of_lt h1]
      rw [memWrite_outside]
      · show (if head ≤ head + i ∧
            head + i < head + (data.take (K - head)).length then
            (data.take (K - head)).getD (head + i - head) 0
          else m (head + i)) = data.getD i 0
        have h3 : (data.take (K - head)).length = K - head := by
          simp [List.length_take]
          omega
        rw [if_pos (by rw [h3]; omega)]
        have h4 : head + i - head = i := by omega
        rw [h4]
        exact getD_take data (K - head) i h2
      · right
        simp only [Nat.zero_add, List.length_drop]
        omega
    · have hge : K ≤ head + i := by omega
      have h1 : (head + i) % K = head + i - K := by
        rw [Nat.mod_eq_sub_mod hge, Nat.mod_eq_of_lt (by omega)]
      rw [h1]
      show (if 0 ≤ head + i - K ∧
          head + i - K < 0 + (data.drop (K - head)).length then
          (data.drop (K - head)).getD (head + i - K - 0) 0
        else memWrite m head (data.take (K - head)) (head + i - K)) =
        data.getD i 0
      rw [if_pos (by simp only [List.length_drop]; omega)]
      have h5 : head + i - K - 0 = i - (K - head) := by omega
      rw [h5, getD_drop]
      congr 1
      omega

/-- The split copy of `CircularBuffer::Send` leaves every ring position
other than `(head + i) % K`, `i < |data|`, unchanged. -/
lemma ringWrite_old (m : Nat → Nat) (K head : Nat) (data : List Nat)
    (hhead : head < K) (hlen : data.length ≤ K) (a : Nat) (ha : a < K)
    (hout : ∀ i, i < data.length → a ≠ (head + i) % K) :
    ringWrite m K head data a = m a := by
  unfold ringWrite
  by_cases h : head + data.length ≤ K
  · rw [if_pos h]
    apply memWrite_outside
    by_contra hcon
    push_neg at hcon
    obtain ⟨hc1, hc2⟩ := hcon
    refine hout (a - head) (by omega) ?_
    have h2 : head + (a - head) = a := by omega
    rw [h2, Nat.mod_eq_of_lt ha]
  · rw [if_neg h]
    have hfst : (data.take (K - head)).length = K - head := by
      simp [List.length_take]
      omega
    have hsnd : (data.drop (K - head)).length = data.length - (K - head) := by
      simp
    rw [memWrite_outside, memWrite_outside]
    · by_contra hcon
      push_neg at hcon
      obtain ⟨hc1, hc2⟩ := hcon
      rw [hfst] at hc2
      refine hout (a - head) (by omega) ?_
      have h2 : head + (a - head) = a := by omega
      rw [h2, Nat.mod_eq_of_lt ha]
    · by_contra hcon
      push_neg at hcon
      obtain ⟨hc1, hc2⟩ := hcon
      rw [hsnd] at hc2
      simp only [Nat.zero_add] at hc2
      refine hout ((K - head) + a) (by omega) ?_
      have h2 : (head + ((K - head) + a)) = K + a := by omega
      rw [h2, Nat.add_mod_left, Nat.mod_eq_of_lt ha]

/-- The split read of `CircularBuffer::Receive` returns the `size` ring
positions starting at the tail. -/
lemma ringRead_spec (m : Nat → Nat) (K tail size : Nat) (htail : tail < K)
    (hsize : size ≤ K) :
    ringRead m K tail size =
      (List.range size).map (fun i => m ((tail + i) % K)) := by
  unfold ringRead
  by_cases h : tail + size ≤ K
  · rw [if_pos h]
    unfold memRead
    apply List.map_congr_left
    intro i hi
    have h1 : tail + i < K := by
      have := List.mem_range.mp hi
      omega
    rw [Nat.mod_eq_of_lt h1]
  · rw [if_neg h]
    apply List.ext_getElem
    · simp [memRead]
      omega
    · intro i h1 h2
      have hiz : i < size := by simpa using h2
      have hflen : (memRead m tail (K - tail)).length = K - tail := by
        simp [memRead]
      by_cases hc : i < K - tail
      · rw [List.getElem_append_left (by rw [hflen]; exact hc)]
        simp only [memRead, List.getElem_map, List.getElem_range]
        have h3 : tail + i < K := by omega
        rw [Nat.mod_eq_of_lt h3]
      · rw [List.getElem_append_right (by rw [hflen]; omega)]
        simp only [memRead, List.getElem_map, List.getElem_range,
          List.length_map, List.length_range]
        have hge : K ≤ tail + i := by omega
        have hmod : (tail + i) % K = tail + i - K := by
          rw [Nat.mod_eq_sub_mod hge, Nat.mod_eq_of_lt (by omega)]
        rw [hmod]
        congr 1
        omega

/-- The buffer's abstract content has `mCurrentSize` bytes. -/
lemma cbAbs_length (cb : CircularBuffer) :
    cb.abs.length = cb.mCurrentSize := by
  simp [CircularBuffer.abs]

/-- A successful `Send` appends its bytes to the buffer's abstract
content and preserves the ring invariant — also when the copy wraps. -/
lemma cbSend_spec (cb : CircularBuffer) (data : List Nat)
    (hinv : cb.inv) (hne : data.length ≠ 0)
    (hcap : cb.mCurrentSize + data.length ≤ cb.mBufferSize) :
    (cb.Send data).1 = Result.RESULT_SUCCESS ∧
    (cb.Send data).2.inv ∧
    (cb.Send data).2.abs = cb.abs ++ data ∧
    (cb.Send data).2.mBufferSize = cb.mBufferSize ∧
    (cb.Send data).2.mCurrentSize = cb.mCurrentSize + data.length ∧
    (cb.Send data).2.mTail = cb.mTail := by
  obtain ⟨ht, hh, hs⟩ := hinv
  have hK : 0 < cb.mBufferSize := by omega
  have hhead : cb.mHead < cb.mBufferSize := by
    rw [hh]; exact Nat.mod_lt _ hK
  have hsend : cb.Send data =
      (Result.RESULT_SUCCESS,
        { cb with
          mBuffer := ringWrite cb.mBuffer cb.mBufferSize cb.mHead data,
          mHead := (cb.mHead + data.length) % cb.mBufferSize,
          mCurrentSize := cb.mCurrentSize + data.length }) := by
    unfold CircularBuffer.Send
    rw [if_neg hne, if_neg (by omega)]
  refine ⟨by rw [hsend], ⟨by rw [hsend]; exact ht, ?_, ?_⟩, ?_,
    by simp [hsend], by simp [hsend], by simp [hsend]⟩
  · show (cb.Send data).2.mHead =
      ((cb.Send data).2.mTail + (cb.Send data).2.mCurrentSize) %
        (cb.Send data).2.mBufferSize
    rw [hsend]
    show (cb.mHead + data.length) % cb.mBufferSize =
      (cb.mTail + (cb.mCurrentSize + data.length)) % cb.mBufferSize
    rw [hh, Nat.mod_add_mod, Nat.add_assoc]
  · show (cb.Send data).2.mCurrentSize ≤ (cb.Send data).2.mBufferSize
    rw [hsend]
    show cb.mCurrentSize + data.length ≤ cb.mBufferSize
    exact hcap
  · show (cb.Send data).2.abs = cb.abs ++ data
    rw [hsend]
    show (List.range (cb.mCurrentSize + data.length)).map
        (fun i => ringWrite cb.mBuffer cb.mBufferSize cb.mHead data
          ((cb.mTail + i) % cb.mBufferSize)) = cb.abs ++ data
    apply List.ext_getElem
    · simp [CircularBuffer.abs]
    · intro i h1 h2
      have hi : i < cb.mCurrentSize + data.length := by simpa using h1
      simp only [List.getElem_map, List.getElem_range]
      by_cases hc : i < cb.mCurrentSize
      · rw [List.getElem_append_left
          (by rw [cbAbs_length]; exact hc)]
        simp only [CircularBuffer.abs, List.getElem_map, List.getElem_range]
        apply ringWrite_old cb.mBuffer cb.mBufferSize cb.mHead data hhead
          (by omega) _ (Nat.mod_lt _ hK)
        intro j hj heq
        have e1 : (cb.mHead + j) % cb.mBufferSize =
            (cb.mTail + (cb.mCurrentSize + j)) % cb.mBufferSize := by
          rw [hh, Nat.mod_add_mod, Nat.add_assoc]
        rw [e1] at heq
        exact mod_distinct cb.mBufferSize cb.mTail i (cb.mCurrentSize + j)
          (by omega) (by omega) (by omega) heq
      · rw [List.getElem_append_right
          (by rw [cbAbs_length]; omega)]
        have e2 : (cb.mTail + i) % cb.mBufferSize =
            (cb.mHead + (i - cb.mCurrentSize)) % cb.mBufferSize := by
          rw [hh, Nat.mod_add_mod]
          congr 1
          omega
        rw [e2, ringWrite_at cb.mBuffer cb.mBufferSize cb.mHead data hhead
          (by omega) _ (by omega)]
        rw [List.getD_eq_getElem _ _ (by omega)]
        congr 1
        rw [cbAbs_length]
    
/-- A satisfiable `Receive` returns the oldest bytes of the abstract
content and drops them, preserving the ring invariant — also when the
read wraps. -/
lemma cbReceive_spec (cb : CircularBuffer) (size : Nat)
    (hinv : cb.inv) (hne : size ≠ 0) (hav : size ≤ cb.mCurrentSize) :
    (cb.Receive size).1 = Result.RESULT_SUCCESS ∧
    (cb.Receive size).2.1 = cb.abs.take size ∧
    (cb.Receive size).2.2.inv ∧
    (cb.Receive size).2.2.abs = cb.abs.drop size ∧
    (cb.Receive size).2.2.mBufferSize = cb.mBufferSize ∧
    (cb.Receive size).2.2.mCurrentSize = cb.mCurrentSize - size := by
  obtain ⟨ht, hh, hs⟩ := hinv
  have hK : 0 < cb.mBufferSize := by omega
  have hrecv : cb.Receive size =
      (Result.RESULT_SUCCESS,
        ringRead cb.mBuffer cb.mBufferSize cb.mTail size,
        { cb with
          mTail := (cb.mTail + size) % cb.mBufferSize,
          mCurrentSize := cb.mCurrentSize - size }) := by
    unfold CircularBuffer.Receive
    rw [if_neg hne, if_pos (by omega)]
  refine ⟨by rw [hrecv], ?_, ⟨?_, ?_, ?_⟩, ?_, by simp [hrecv],
    by simp [hrecv]⟩
  · rw [hrecv]
    show ringRead cb.mBuffer cb.mBufferSize cb.mTail size = cb.abs.take size
    rw [ringRead_spec cb.mBuffer cb.mBufferSize cb.mTail size ht (by omega)]
    show _ = ((List.range cb.mCurrentSize).map
      (fun i => cb.mBuffer ((cb.mTail + i) % cb.mBufferSize))).take size
    rw [← List.map_take, List.take_range, Nat.min_eq_left hav]
  · show (cb.Receive size).2.2.mTail < (cb.Receive size).2.2.mBufferSize
    rw [hrecv]
    exact Nat.mod_lt _ hK
  · show (cb.Receive size).2.2.mHead =
      ((cb.Receive size).2.2.mTail + (cb.Receive size).2.2.mCurrentSize) %
        (cb.Receive size).2.2.mBufferSize
    rw [hrecv]
    show cb.mHead =
      ((cb.mTail + size) % cb.mBufferSize + (cb.mCurrentSize - size)) %
        cb.mBufferSize
    rw [hh, Nat.mod_add_mod]
    congr 1
    omega
  · show (cb.Receive size).2.2.mCurrentSize ≤ (cb.Receive size).2.2.mBufferSize
    rw [hrecv]
    show cb.mCurrentSize - size ≤ cb.mBufferSize
    omega
  · show (cb.Receive size).2.2.abs = cb.abs.drop size
    rw [hrecv]
    show (List.range (cb.mCurrentSize - size)).map
        (fun i => cb.mBuffer
          (((cb.mTail + size) % cb.mBufferSize + i) % cb.mBufferSize)) =
      cb.abs.drop size
    apply List.ext_getElem
    · simp [CircularBuffer.abs]
    · intro i h1 h2
      simp only [List.getElem_map, List.getElem_range, List.getElem_drop]
      simp only [CircularBuffer.abs, List.getElem_map, List.getElem_range]
      rw [Nat.mod_add_mod, Nat.add_assoc]

/-- Along any workload whose steps all succeed, the bytes delivered so
far followed by the bytes still buffered equal the initial content
followed by all bytes submitted. -/
lemma CircularBuffer.runOps_spec (ops : List CBOp) : ∀ (cb : CircularBuffer),
    cb.inv → CircularBuffer.opsOK cb ops →
    (cb.runOps ops).1 ++ (cb.runOps ops).2.abs = cb.abs ++ sentBytes ops ∧
    (cb.runOps ops).2.inv ∧
    (cb.runOps ops).2.mBufferSize = cb.mBufferSize := by
  induction ops with
  | nil =>
    intro cb hinv _
    exact ⟨by simp [CircularBuffer.runOps, sentBytes], hinv, rfl⟩
  | cons op rest ih =>
    intro cb hinv hok
    cases op with
    | send d =>
      obtain ⟨hd, hcap, hrest⟩ := hok
      obtain ⟨s1, s2, s3, s4, s5, s6⟩ :=
        cbSend_spec cb d hinv (by omega) hcap
      obtain ⟨i1, i2, i3⟩ := ih (cb.Send d).2 s2 hrest
      refine ⟨?_, i2, by
        show ((cb.Send d).2.runOps rest).2.mBufferSize = cb.mBufferSize
        rw [i3, s4]⟩
      show ((cb.Send d).2.runOps rest).1 ++ ((cb.Send d).2.runOps rest).2.abs =
        cb.abs ++ sentBytes (CBOp.send d :: rest)
      rw [i1, s3]
      show cb.abs ++ d ++ sentBytes rest = cb.abs ++ (d ++ sentBytes rest)
      rw [List.append_assoc]
    | recv n =>
      obtain ⟨hn, hav, hrest⟩ := hok
      obtain ⟨r1, r2, r3, r4, r5, r6⟩ :=
        cbReceive_spec cb n hinv (by omega) hav
      obtain ⟨i1, i2, i3⟩ := ih (cb.Receive n).2.2 r3 hrest
      refine ⟨?_, i2, by
        show ((cb.Receive n).2.2.runOps rest).2.mBufferSize = cb.mBufferSize
        rw [i3, r5]⟩
      show (cb.Receive n).2.1 ++ ((cb.Receive n).2.2.runOps rest).1 ++
          ((cb.Receive n).2.2.runOps rest).2.abs =
        cb.abs ++ sentBytes (CBOp.recv n :: rest)
      rw [List.append_assoc, i1, r2, r4]
      show cb.abs.take n ++ (cb.abs.drop n ++ sentBytes rest) =
        cb.abs ++ sentBytes rest
      rw [← List.append_assoc, List.take_append_drop]

/-- C7: circular-buffer byte-stream round-trip — starting from a freshly
initialized buffer of capacity K, for every interleaving of send chunks
that each fit (the full check never trips) and receive chunks that are
each immediately satisfiable, once the workload drains the buffer the
concatenation of the bytes delivered by the receives equals the
concatenation of the bytes submitted by the sends, wrapping splits
included. -/
theorem circularBuffer_roundtrip (K : Nat) (m0 : Nat → Nat) (ops : List CBOp)
    (hK : 0 < K)
    (hok : CircularBuffer.opsOK ⟨m0, 0, 0, 0, K⟩ ops)
    (hdrained :
      (CircularBuffer.runOps ⟨m0, 0, 0, 0, K⟩ ops).2.mCurrentSize = 0) :
    (CircularBuffer.runOps ⟨m0, 0, 0, 0, K⟩ ops).1 = sentBytes ops := by
  have hinv : (⟨m0, 0, 0, 0, K⟩ : CircularBuffer).inv := by
    refine ⟨hK, ?_, Nat.zero_le K⟩
    show (0 : Nat) = (0 + 0) % K
    simp
  obtain ⟨h1, h2, h3⟩ := CircularBuffer.runOps_spec ops _ hinv hok
  have habs0 : (⟨m0, 0, 0, 0, K⟩ : CircularBuffer).abs = [] := by
    simp [CircularBuffer.abs]
  have habsF : (CircularBuffer.runOps ⟨m0, 0, 0, 0, K⟩ ops).2.abs = [] := by
    unfold CircularBuffer.abs
    rw [hdrained]
    rfl
  rw [habs0, habsF] at h1
  simpa using h1

/-- C7 witness: the round-trip theorem applied to a capacity-4 buffer and
a workload whose second send and second receive both wrap past the end of
the storage. -/
theorem circularBuffer_roundtrip_witness :
    (CircularBuffer.opsOK ⟨fun _ => 9, 0, 0, 0, 4⟩
      [CBOp.send [1, 2, 3], CBOp.recv 2, CBOp.send [10, 20, 30],
        CBOp.recv 4] ∧
     (CircularBuffer.runOps ⟨fun _ => 9, 0, 0, 0, 4⟩
      [CBOp.send [1, 2, 3], CBOp.recv 2, CBOp.send [10, 20, 30],
        CBOp.recv 4]).2.mCurrentSize = 0) ∧
    (CircularBuffer.runOps ⟨fun _ => 9, 0, 0, 0, 4⟩
      [CBOp.send [1, 2, 3], CBOp.recv 2, CBOp.send [10, 20, 30],
        CBOp.recv 4]).1 =
      sentBytes [CBOp.send [1, 2, 3], CBOp.recv 2, CBOp.send [10, 20, 30],
        CBOp.recv 4] :=
  ⟨⟨⟨by decide, by decide, by decide, by decide, by decide, by decide,
      by decide, by decide, trivial⟩, by decide⟩,
   circularBuffer_roundtrip 4 (fun _ => 9)
     [CBOp.send [1, 2, 3], CBOp.recv 2, CBOp.send [10, 20, 30], CBOp.recv 4]
     (by decide)
     ⟨by decide, by decide, by decide, by decide, by decide, by decide,
      by decide, by decide, trivial⟩
     (by decide)⟩
